import Mathlib

/-!
Verification of the multipart upload pipeline of `MultiPartUploader`
(src/src/components/CollectionShare.tsx, Dart portion, lines 641-885).

The class drives a resumable multi-part upload: it plans part counts
(`calculatePartCount`), uploads the not-yet-uploaded suffix of parts in
ascending order (`_uploadParts`), records each part's ETag in a durable
store, and finalizes via a completion call (`_completeMultipartUpload`).
We embed the functions shallowly: network and store effects become an
explicit trace of `Event`s, server behaviour is an oracle `resp` giving
each part's response and `postResult` giving the finalize outcome, and
each Dart method becomes a Lean function returning (trace, result).

The two part-size constants (`multipartPartSize`,
`multipartPartSizeInternal`, from photos/core/constants.dart) are not in
the sources, so they appear as parameters.
-/

namespace MultiPart

/-- Session status, `MultipartStatus` in the Dart model. -/
inductive MultipartStatus where
  | pending
  | uploaded
  | completed
deriving DecidableEq, Repr

/-- Outcome of one `_s3Dio.put` of a part: the request can throw
(network failure), or return a response whose etag header is absent
(`none`) or present. -/
inductive PartResp where
  | fail (msg : String)
  | ok (etag : Option String)
deriving DecidableEq, Repr

/-- Observable effects of the uploader, in program order:
`touchLastAttempt` is `_db.updateLastAttempted`; `putPart i len` is the
`_s3Dio.put` of part `i` declaring content-length `len`;
`recordPart i e` is `_db.updatePartStatus(objectKey, i, e)`;
`setStatus s` is `_db.updateTrackUploadStatus(objectKey, s)`;
`postComplete body` is the `_s3Dio.post` of the completion body. -/
inductive Event where
  | touchLastAttempt
  | putPart (i : Nat) (declaredLen : Nat)
  | recordPart (i : Nat) (etag : String)
  | setStatus (s : MultipartStatus)
  | postComplete (body : List (Nat × String))
deriving DecidableEq, Repr

/-- Model of `MultipartUploadURLs`: object key, per-part presigned URLs, and the
completion URL. -/
structure MultipartUploadURLs where
  objectKey : String
  partsURLs : List String
  completeURL : String
deriving DecidableEq, Repr

/-- Model of `MultipartInfo` as read back by `_db.getCachedLinks`: the nullable
fields mirror the Dart nullable members used by `_uploadParts`. ETag
maps are association lists in insertion order, matching Dart's default
`LinkedHashMap` iteration order. -/
structure MultipartInfo where
  urls : MultipartUploadURLs
  partUploadStatus : Option (List Bool)
  partETags : Option (List (Nat × String))
  partSize : Option Nat
  status : MultipartStatus
deriving DecidableEq, Repr

/-- Selected tier part size: the Dart getter `multipartPartSizeForUpload`
returns `multipartPartSizeInternal` for internal users and
`multipartPartSize` otherwise. -/
def multipartPartSizeForUpload (internalUser : Bool)
    (multipartPartSize multipartPartSizeInternal : Nat) : Nat :=
  if internalUser then multipartPartSizeInternal else multipartPartSize

/-- Embedding of `calculatePartCount`: 1 for non-internal users, otherwise
`(fileSize / multipartPartSizeForUpload).ceil()`, embedded as the
ceiling division `(fileSize + p - 1) / p` on naturals. -/
def calculatePartCount (internalUser : Bool)
    (multipartPartSize multipartPartSizeInternal : Nat)
    (fileSize : Nat) : Nat :=
  if internalUser = false then 1
  else
    let p := multipartPartSizeForUpload internalUser
      multipartPartSize multipartPartSizeInternal
    (fileSize + p - 1) / p

/-- The scan `while (i < partUploadStatus.length && partUploadStatus[i]) i++;`
of `_uploadParts`: index of the first entry that is not `true` (the list
length if all are `true`). -/
def firstNotUploaded : List Bool → Nat
  | [] => 0
  | b :: rest => if b then firstNotUploaded rest + 1 else 0

/-- Dart map assignment `etags[i] = eTag` on a `LinkedHashMap`: an
existing key keeps its position and gets the new value; a new key is
appended at the end. -/
def upsert : List (Nat × String) → Nat → String → List (Nat × String)
  | [], k, v => [(k, v)]
  | (k', v') :: rest, k, v =>
      if k' = k then (k, v) :: rest else (k', v') :: upsert rest k v

/-- Dart map lookup `etags[i]` on the association list. -/
def lookupEtag : List (Nat × String) → Nat → Option String
  | [], _ => none
  | (k, v) :: rest, i => if k = i then some v else lookupEtag rest i

/-- Body of the `while (i < partsLength)` loop of `_uploadParts`, run over
the list of remaining part indices. Per part: declare content-length
(`fileLen % partSize` for the last part, `partSize` otherwise), put the
part, throw `ETAG_MISSING` when the response etag is absent or empty,
otherwise store the etag in the map and record it durably. After the
loop the status is set to `uploaded`. A thrown exception aborts the
loop, skipping the trailing status write. -/
def uploadLoop (resp : Nat → PartResp) (fileLen partSize partsLength : Nat) :
    List Nat → List (Nat × String) →
      List Event × Except String (List (Nat × String))
  | [], etags => ([Event.setStatus MultipartStatus.uploaded], Except.ok etags)
  | i :: rest, etags =>
      let declaredLen := if i = partsLength - 1 then fileLen % partSize else partSize
      match resp i with
      | PartResp.fail msg => ([Event.putPart i declaredLen], Except.error msg)
      | PartResp.ok none =>
          ([Event.putPart i declaredLen], Except.error "ETAG_MISSING")
      | PartResp.ok (some e) =>
          if e = "" then
            ([Event.putPart i declaredLen], Except.error "ETAG_MISSING")
          else
            let out := uploadLoop resp fileLen partSize partsLength rest (upsert etags i e)
            (Event.putPart i declaredLen :: Event.recordPart i e :: out.1, out.2)

/-- Embedding of `_uploadParts`: skip the already-uploaded leading `true` run of
`partUploadStatus`, then upload parts `start .. partsLength - 1` in
ascending order. `dps` stands for the value of the Dart getter
`multipartPartSizeForUpload`, the default when `partInfo.partSize` is
null. -/
def uploadParts (resp : Nat → PartResp) (dps fileLen : Nat)
    (partInfo : MultipartInfo) :
    List Event × Except String (List (Nat × String)) :=
  let partsLength := partInfo.urls.partsURLs.length
  let partSize := partInfo.partSize.getD dps
  let etags := partInfo.partETags.getD []
  let start := firstNotUploaded (partInfo.partUploadStatus.getD [])
  uploadLoop resp fileLen partSize partsLength
    (List.range' start (partsLength - start)) etags

/-- The completion body built by `_completeMultipartUpload`: each map
entry `(i, etag)` becomes the pair `(i + 1, etag)` (1-based part
number), in the map's iteration order. -/
def completeBody (partEtags : List (Nat × String)) : List (Nat × String) :=
  partEtags.map (fun e => (e.1 + 1, e.2))

/-- Embedding of `_completeMultipartUpload`: post the body; on success mark the
session `completed`; on failure rethrow the error unchanged without any
status write. `postResult = none` models a successful post, `some err`
a post that throws `err`. -/
def completeMultipartUpload (postResult : Option String)
    (partEtags : List (Nat × String)) : List Event × Except String Unit :=
  let body := completeBody partEtags
  match postResult with
  | none =>
      ([Event.postComplete body, Event.setStatus MultipartStatus.completed],
        Except.ok ())
  | some err => ([Event.postComplete body], Except.error err)

/-- Embedding of `putExistingMultipartFile`: touch the attempt timestamp; if the
session is `pending`, upload the missing parts (replacing the etag map
with the loop's result); if the loaded status is not `completed`, run
the completion call; finally return the stored object key. Errors
propagate and abort the remaining steps. -/
def putExistingMultipartFile (resp : Nat → PartResp)
    (postResult : Option String) (dps fileLen : Nat)
    (multipartInfo : MultipartInfo) : List Event × Except String String :=
  let etags0 := multipartInfo.partETags.getD []
  if multipartInfo.status = MultipartStatus.pending then
    match uploadParts resp dps fileLen multipartInfo with
    | (tr, Except.error e) => (Event.touchLastAttempt :: tr, Except.error e)
    | (tr, Except.ok etags) =>
        let out := completeMultipartUpload postResult etags
        match out.2 with
        | Except.ok _ =>
            (Event.touchLastAttempt :: tr ++ out.1,
              Except.ok multipartInfo.urls.objectKey)
        | Except.error e => (Event.touchLastAttempt :: tr ++ out.1, Except.error e)
  else if multipartInfo.status = MultipartStatus.completed then
    ([Event.touchLastAttempt], Except.ok multipartInfo.urls.objectKey)
  else
    let out := completeMultipartUpload postResult etags0
    match out.2 with
    | Except.ok _ =>
        (Event.touchLastAttempt :: out.1, Except.ok multipartInfo.urls.objectKey)
    | Except.error e => (Event.touchLastAttempt :: out.1, Except.error e)

/-- Embedding of `putMultipartFile`: a fresh upload runs the part loop on a bare
`MultipartInfo(urls: urls)` (all tracking fields at their defaults,
status `pending`) and then the completion call. -/
def putMultipartFile (resp : Nat → PartResp) (postResult : Option String)
    (dps fileLen : Nat) (urls : MultipartUploadURLs) :
    List Event × Except String String :=
  let freshInfo : MultipartInfo :=
    ⟨urls, none, none, none, MultipartStatus.pending⟩
  match uploadParts resp dps fileLen freshInfo with
  | (tr, Except.error e) => (tr, Except.error e)
  | (tr, Except.ok etags) =>
      let out := completeMultipartUpload postResult etags
      match out.2 with
      | Except.ok _ => (tr ++ out.1, Except.ok urls.objectKey)
      | Except.error e => (tr ++ out.1, Except.error e)

/-- Part indices put to the network, in trace order. -/
def partPuts : List Event → List Nat
  | [] => []
  | Event.putPart i _ :: rest => i :: partPuts rest
  | _ :: rest => partPuts rest

/-- Status values written to the store, in trace order. -/
def statusWrites : List Event → List MultipartStatus
  | [] => []
  | Event.setStatus s :: rest => s :: statusWrites rest
  | _ :: rest => statusWrites rest

/-- Numeric rank of the `pending → uploaded → completed` progression. -/
def rank : MultipartStatus → Nat
  | MultipartStatus.pending => 0
  | MultipartStatus.uploaded => 1
  | MultipartStatus.completed => 2

end MultiPart

namespace MultiPart

/-- A part response that carries a usable (non-empty) identifier. -/
def goodResp (resp : Nat → PartResp) (i : Nat) : Prop :=
  ∃ s, resp i = PartResp.ok (some s) ∧ s ≠ ""

theorem mem_statusWrites (s : MultipartStatus) (tr : List Event) :
    s ∈ statusWrites tr ↔ Event.setStatus s ∈ tr := by
  induction tr with
  | nil => simp [statusWrites]
  | cons ev rest ih =>
    cases ev <;> simp [statusWrites, ih]

theorem mem_partPuts (i : Nat) (tr : List Event) :
    i ∈ partPuts tr ↔ ∃ dl, Event.putPart i dl ∈ tr := by
  induction tr with
  | nil => simp [partPuts]
  | cons ev rest ih =>
    cases ev <;> simp [partPuts, ih]
    case putPart j dl =>
      constructor
      · rintro (rfl | ⟨dl', h⟩)
        · exact ⟨dl, Or.inl ⟨rfl, rfl⟩⟩
        · exact ⟨dl', Or.inr h⟩
      · rintro ⟨dl', (⟨rfl, rfl⟩ | h)⟩
        · exact Or.inl rfl
        · exact Or.inr ⟨dl', h⟩

theorem uploadLoop_run (resp : Nat → PartResp) (fl ps n : Nat) (L : List Nat)
    (etags : List (Nat × String)) (h : ∀ i ∈ L, goodResp resp i) :
    partPuts (uploadLoop resp fl ps n L etags).1 = L ∧
    ∃ res, (uploadLoop resp fl ps n L etags).2 = Except.ok res := by
  induction L generalizing etags with
  | nil => simp [uploadLoop, partPuts]
  | cons i rest ih =>
    obtain ⟨s, hs, hne⟩ := h i (by simp)
    have hrest : ∀ j ∈ rest, goodResp resp j := fun j hj => h j (by simp [hj])
    have := ih (upsert etags i s) hrest
    simp only [uploadLoop, hs, if_neg hne, partPuts]
    exact ⟨by rw [this.1], this.2⟩

end MultiPart

namespace MultiPart

theorem uploadLoop_recordPart (resp : Nat → PartResp) (fl ps n : Nat)
    (L : List Nat) (etags : List (Nat × String)) (i : Nat) (e : String)
    (h : Event.recordPart i e ∈ (uploadLoop resp fl ps n L etags).1) :
    e ≠ "" ∧ resp i = PartResp.ok (some e) := by
  induction L generalizing etags with
  | nil => simp [uploadLoop] at h
  | cons j rest ih =>
    cases hr : resp j with
    | fail msg => simp [uploadLoop, hr] at h
    | ok etagOpt =>
      cases etagOpt with
      | none => simp [uploadLoop, hr] at h
      | some s =>
        by_cases hse : s = ""
        · simp [uploadLoop, hr, hse] at h
        · simp only [uploadLoop, hr, if_neg hse, List.mem_cons] at h
          rcases h with h | h | h
          · exact absurd h (by simp)
          · obtain ⟨rfl, rfl⟩ : i = j ∧ e = s := by
              simpa using h
            exact ⟨hse, hr⟩
          · exact ih (upsert etags j s) h

theorem uploadLoop_statusWrites (resp : Nat → PartResp) (fl ps n : Nat)
    (L : List Nat) (etags : List (Nat × String)) :
    statusWrites (uploadLoop resp fl ps n L etags).1 =
      match (uploadLoop resp fl ps n L etags).2 with
      | Except.ok _ => [MultipartStatus.uploaded]
      | Except.error _ => [] := by
  induction L generalizing etags with
  | nil => simp [uploadLoop, statusWrites]
  | cons j rest ih =>
    cases hr : resp j with
    | fail msg => simp [uploadLoop, hr, statusWrites]
    | ok etagOpt =>
      cases etagOpt with
      | none => simp [uploadLoop, hr, statusWrites]
      | some s =>
        by_cases hse : s = ""
        · simp [uploadLoop, hr, hse, statusWrites]
        · simp only [uploadLoop, hr, if_neg hse, statusWrites]
          exact ih (upsert etags j s)

theorem lookupEtag_upsert (etags : List (Nat × String)) (k : Nat) (v : String)
    (i : Nat) :
    lookupEtag (upsert etags k v) i =
      if k = i then some v else lookupEtag etags i := by
  induction etags with
  | nil => simp [upsert, lookupEtag]
  | cons p rest ih =>
    obtain ⟨k', v'⟩ := p
    by_cases hk : k' = k
    · subst hk
      by_cases hi : k' = i <;> simp [upsert, lookupEtag, hi]
    · by_cases hi : k' = i
      · subst hi
        have : k ≠ k' := fun h => hk h.symm
        simp [upsert, hk, lookupEtag, this]
      · simp [upsert, hk, lookupEtag, hi, ih]

theorem uploadLoop_lookup (resp : Nat → PartResp) (fl ps n : Nat)
    (L : List Nat) (etags res : List (Nat × String))
    (hok : (uploadLoop resp fl ps n L etags).2 = Except.ok res) :
    (∀ i, i ∉ L → lookupEtag res i = lookupEtag etags i) ∧
    (∀ i ∈ L, ∀ s, resp i = PartResp.ok (some s) → lookupEtag res i = some s) := by
  induction L generalizing etags with
  | nil =>
    simp only [uploadLoop] at hok
    obtain rfl : etags = res := by simpa using hok
    simp
  | cons j rest ih =>
    cases hr : resp j with
    | fail msg => simp [uploadLoop, hr] at hok
    | ok etagOpt =>
      cases etagOpt with
      | none => simp [uploadLoop, hr] at hok
      | some s =>
        by_cases hse : s = ""
        · simp [uploadLoop, hr, hse] at hok
        · simp only [uploadLoop, hr, if_neg hse] at hok
          obtain ⟨hpres, hmem⟩ := ih (upsert etags j s) hok
          constructor
          · intro i hi
            have hij : i ≠ j := fun h => hi (by simp [h])
            have hirest : i ∉ rest := fun h => hi (by simp [h])
            rw [hpres i hirest, lookupEtag_upsert,
              if_neg (fun h => hij h.symm)]
          · intro i hiL t ht
            by_cases hirest : i ∈ rest
            · exact hmem i hirest t ht
            · have hij : i = j := by
                rcases List.mem_cons.mp hiL with h | h
                · exact h
                · exact absurd h hirest
              subst hij
              have hst : t = s := by
                rw [hr] at ht
                injection ht with h
                injection h with h2
                exact h2.symm
              subst hst
              rw [hpres i hirest, lookupEtag_upsert]
              simp

theorem uploadLoop_missingTag (resp : Nat → PartResp) (fl ps n : Nat)
    (L : List Nat) (etags : List (Nat × String)) (i : Nat)
    (hi : resp i = PartResp.ok none ∨ resp i = PartResp.ok (some "")) :
    (∀ e, Event.recordPart i e ∉ (uploadLoop resp fl ps n L etags).1) ∧
    (i ∈ partPuts (uploadLoop resp fl ps n L etags).1 →
      (uploadLoop resp fl ps n L etags).2 = Except.error "ETAG_MISSING") := by
  constructor
  · intro e he
    obtain ⟨hne, hr⟩ := uploadLoop_recordPart resp fl ps n L etags i e he
    rcases hi with hi | hi <;> rw [hi] at hr
    · exact absurd hr (by simp)
    · have : e = "" := by injection hr with h; exact (Option.some.injEq .. ▸ h).symm
      exact hne this
  · induction L generalizing etags with
    | nil => simp [uploadLoop, partPuts]
    | cons j rest ih =>
      by_cases hji : j = i
      · subst hji
        rcases hi with h | h <;> simp [uploadLoop, h]
      · cases hr : resp j with
        | fail msg =>
          simp only [uploadLoop, hr, partPuts]
          intro hmem
          simp at hmem
          exact absurd hmem.symm hji
        | ok etagOpt =>
          cases etagOpt with
          | none =>
            simp only [uploadLoop, hr, partPuts]
            intro hmem
            simp at hmem
            exact absurd hmem.symm hji
          | some s =>
            by_cases hse : s = ""
            · simp only [uploadLoop, hr, hse, if_pos rfl, partPuts]
              intro hmem
              simp at hmem
              exact absurd hmem.symm hji
            · simp only [uploadLoop, hr, if_neg hse, partPuts]
              intro hmem
              have : i ∈ partPuts (uploadLoop resp fl ps n rest (upsert etags j s)).1 := by
                rcases List.mem_cons.mp hmem with h | h
                · exact absurd h.symm hji
                · exact h
              exact ih (upsert etags j s) this

theorem firstNotUploaded_replicate_append (k : Nat) (l : List Bool) :
    firstNotUploaded (List.replicate k true ++ l) = k + firstNotUploaded l := by
  induction k with
  | zero => simp
  | succ m ih => simp [List.replicate_succ, firstNotUploaded, ih]; omega

theorem firstNotUploaded_replicate_false (m : Nat) :
    firstNotUploaded (List.replicate m false) = 0 := by
  cases m <;> simp [List.replicate_succ, firstNotUploaded]

end MultiPart

namespace MultiPart

theorem partPuts_append (l1 l2 : List Event) :
    partPuts (l1 ++ l2) = partPuts l1 ++ partPuts l2 := by
  induction l1 with
  | nil => simp [partPuts]
  | cons ev rest ih => cases ev <;> simp [partPuts, ih]

theorem statusWrites_append (l1 l2 : List Event) :
    statusWrites (l1 ++ l2) = statusWrites l1 ++ statusWrites l2 := by
  induction l1 with
  | nil => simp [statusWrites]
  | cons ev rest ih => cases ev <;> simp [statusWrites, ih]

theorem uploadParts_recordPart (resp : Nat → PartResp) (dps fileLen : Nat)
    (partInfo : MultipartInfo) (i : Nat) (e : String)
    (h : Event.recordPart i e ∈ (uploadParts resp dps fileLen partInfo).1) :
    e ≠ "" ∧ resp i = PartResp.ok (some e) :=
  uploadLoop_recordPart resp fileLen (partInfo.partSize.getD dps)
    partInfo.urls.partsURLs.length _ (partInfo.partETags.getD []) i e h

theorem uploadParts_statusWrites (resp : Nat → PartResp) (dps fileLen : Nat)
    (partInfo : MultipartInfo) :
    statusWrites (uploadParts resp dps fileLen partInfo).1 =
      match (uploadParts resp dps fileLen partInfo).2 with
      | Except.ok _ => [MultipartStatus.uploaded]
      | Except.error _ => [] :=
  uploadLoop_statusWrites resp fileLen (partInfo.partSize.getD dps)
    partInfo.urls.partsURLs.length _ (partInfo.partETags.getD [])

/-- Exhaustive case analysis of one `putExistingMultipartFile` run. -/
theorem putExisting_cases (resp : Nat → PartResp) (postResult : Option String)
    (dps fileLen : Nat) (info : MultipartInfo) :
    (info.status = MultipartStatus.completed ∧
      putExistingMultipartFile resp postResult dps fileLen info =
        ([Event.touchLastAttempt], Except.ok info.urls.objectKey)) ∨
    (info.status = MultipartStatus.pending ∧ ∃ tr e,
      uploadParts resp dps fileLen info = (tr, Except.error e) ∧
      putExistingMultipartFile resp postResult dps fileLen info =
        (Event.touchLastAttempt :: tr, Except.error e)) ∨
    (info.status = MultipartStatus.pending ∧ ∃ tr etags,
      uploadParts resp dps fileLen info = (tr, Except.ok etags) ∧
      ((postResult = none ∧
          putExistingMultipartFile resp postResult dps fileLen info =
            (Event.touchLastAttempt :: tr ++
              [Event.postComplete (completeBody etags),
                Event.setStatus MultipartStatus.completed],
              Except.ok info.urls.objectKey)) ∨
        (∃ err, postResult = some err ∧
          putExistingMultipartFile resp postResult dps fileLen info =
            (Event.touchLastAttempt :: tr ++
              [Event.postComplete (completeBody etags)],
              Except.error err)))) ∨
    (info.status = MultipartStatus.uploaded ∧
      ((postResult = none ∧
          putExistingMultipartFile resp postResult dps fileLen info =
            ([Event.touchLastAttempt,
              Event.postComplete (completeBody (info.partETags.getD [])),
              Event.setStatus MultipartStatus.completed],
              Except.ok info.urls.objectKey)) ∨
        (∃ err, postResult = some err ∧
          putExistingMultipartFile resp postResult dps fileLen info =
            ([Event.touchLastAttempt,
              Event.postComplete (completeBody (info.partETags.getD []))],
              Except.error err)))) := by
  cases hst : info.status with
  | pending =>
    refine Or.inr ?_
    cases hup : uploadParts resp dps fileLen info with
    | mk tr res =>
      cases res with
      | error e =>
        refine Or.inl ⟨rfl, tr, e, rfl, ?_⟩
        simp [putExistingMultipartFile, hst, hup]
      | ok etags =>
        refine Or.inr (Or.inl ⟨rfl, tr, etags, rfl, ?_⟩)
        cases postResult with
        | none =>
          refine Or.inl ⟨rfl, ?_⟩
          simp [putExistingMultipartFile, hst, hup, completeMultipartUpload]
        | some err =>
          refine Or.inr ⟨err, rfl, ?_⟩
          simp [putExistingMultipartFile, hst, hup, completeMultipartUpload]
  | uploaded =>
    refine Or.inr (Or.inr (Or.inr ⟨rfl, ?_⟩))
    cases postResult with
    | none =>
      refine Or.inl ⟨rfl, ?_⟩
      simp [putExistingMultipartFile, hst, completeMultipartUpload]
    | some err =>
      refine Or.inr ⟨err, rfl, ?_⟩
      simp [putExistingMultipartFile, hst, completeMultipartUpload]
  | completed =>
    refine Or.inl ⟨rfl, ?_⟩
    simp [putExistingMultipartFile, hst]

end MultiPart

namespace MultiPart

/-- C1: on a 20,000,000-byte file with part size 10,000,000 (an exact
multiple), the code computes the last part's declared content-length as
`fileSize % partSize`, which is 0 — not the 10,000,000 the claim
requires. The full trace shows part 1 declared with length 0 while the
body streamed for it is the final 10,000,000-byte range. -/
theorem C1_exact_multiple_declares_zero :
    (uploadParts (fun _ => PartResp.ok (some "e")) 10000000 20000000
        ⟨⟨"objKey", ["u0", "u1"], "cUrl"⟩, none, none, some 10000000,
          MultipartStatus.pending⟩).1 =
      [Event.putPart 0 10000000, Event.recordPart 0 "e",
        Event.putPart 1 0, Event.recordPart 1 "e",
        Event.setStatus MultipartStatus.uploaded] := by
  rfl

/-- C2 counterexample: for an internal user (multi-part permitted) and a
0-byte file, `calculatePartCount` returns `ceil(0 / P) = 0`, violating
the claim's "in all cases the result is ≥ 1". -/
theorem C2_counterexample :
    calculatePartCount true 10000000 10000000 0 = 0 ∧
    ¬ 1 ≤ calculatePartCount true 10000000 10000000 0 := by
  constructor
  · rfl
  · decide

/-- C2 (amended): with a positive tier part size, `calculatePartCount`
returns 1 when multi-part is not permitted, and otherwise the least `k`
with `fileSize ≤ P * k`, i.e. exactly `ceil(fileSize / P)`; the result
is ≥ 1 whenever multi-part is not permitted or the file is non-empty
(for an empty file with multi-part permitted it is 0). -/
theorem C2_partCount_is_ceil (internalUser : Bool)
    (psize psizeInternal fileSize : Nat)
    (hp : 0 < multipartPartSizeForUpload internalUser psize psizeInternal) :
    (internalUser = false →
      calculatePartCount internalUser psize psizeInternal fileSize = 1) ∧
    (internalUser = true →
      fileSize ≤ multipartPartSizeForUpload internalUser psize psizeInternal *
          calculatePartCount internalUser psize psizeInternal fileSize ∧
      ∀ k, fileSize ≤ multipartPartSizeForUpload internalUser psize psizeInternal * k →
        calculatePartCount internalUser psize psizeInternal fileSize ≤ k) ∧
    (internalUser = false ∨ 1 ≤ fileSize →
      1 ≤ calculatePartCount internalUser psize psizeInternal fileSize) := by
  set P := multipartPartSizeForUpload internalUser psize psizeInternal with hP
  cases internalUser with
  | false =>
    refine ⟨fun _ => by simp [calculatePartCount], fun h => by simp at h, fun _ => ?_⟩
    simp [calculatePartCount]
  | true =>
    have hcc : calculatePartCount true psize psizeInternal fileSize =
        (fileSize + P - 1) / P := by
      simp [calculatePartCount, hP]
    refine ⟨fun h => by simp at h, fun _ => ?_, fun h => ?_⟩
    · rw [hcc]
      have hdm := Nat.div_add_mod (fileSize + P - 1) P
      have hmlt := Nat.mod_lt (fileSize + P - 1) hp
      constructor
      · omega
      · intro k hk
        have hexp : P * (k + 1) = P * k + P := by ring
        have hlt : P * ((fileSize + P - 1) / P) < P * (k + 1) := by omega
        exact Nat.lt_succ_iff.mp (Nat.lt_of_mul_lt_mul_left hlt)
    · rcases h with h | h
      · simp at h
      · rw [hcc, Nat.one_le_div_iff hp]
        omega

/-- C2 witness: for an internal user with selected part size 20 and a
45-byte file the count covers the file and is at least 1. -/
theorem C2_partCount_witness :
    45 ≤ multipartPartSizeForUpload true 10 20 *
        calculatePartCount true 10 20 45 ∧
    1 ≤ calculatePartCount true 10 20 45 := by
  have h := C2_partCount_is_ceil true 10 20 45 (by decide)
  exact ⟨(h.2.1 rfl).1, h.2.2 (Or.inr (by decide))⟩

end MultiPart

namespace MultiPart

theorem uploadParts_run (resp : Nat → PartResp) (dps fileLen : Nat)
    (partInfo : MultipartInfo) (h : ∀ i, goodResp resp i) :
    partPuts (uploadParts resp dps fileLen partInfo).1 =
      List.range' (firstNotUploaded (partInfo.partUploadStatus.getD []))
        (partInfo.urls.partsURLs.length -
          firstNotUploaded (partInfo.partUploadStatus.getD [])) ∧
    ∃ res, (uploadParts resp dps fileLen partInfo).2 = Except.ok res :=
  uploadLoop_run resp fileLen (partInfo.partSize.getD dps)
    partInfo.urls.partsURLs.length _ (partInfo.partETags.getD [])
    (fun i _ => h i)

theorem uploadParts_lookup (resp : Nat → PartResp) (dps fileLen : Nat)
    (partInfo : MultipartInfo) (res : List (Nat × String))
    (hok : (uploadParts resp dps fileLen partInfo).2 = Except.ok res) :
    ∀ i ∈ List.range' (firstNotUploaded (partInfo.partUploadStatus.getD []))
        (partInfo.urls.partsURLs.length -
          firstNotUploaded (partInfo.partUploadStatus.getD [])),
      ∀ s, resp i = PartResp.ok (some s) → lookupEtag res i = some s :=
  (uploadLoop_lookup resp fileLen (partInfo.partSize.getD dps)
    partInfo.urls.partsURLs.length _ (partInfo.partETags.getD []) res hok).2

theorem uploadParts_missingTag (resp : Nat → PartResp) (dps fileLen : Nat)
    (partInfo : MultipartInfo) (i : Nat)
    (hi : resp i = PartResp.ok none ∨ resp i = PartResp.ok (some "")) :
    (∀ e, Event.recordPart i e ∉ (uploadParts resp dps fileLen partInfo).1) ∧
    (i ∈ partPuts (uploadParts resp dps fileLen partInfo).1 →
      (uploadParts resp dps fileLen partInfo).2 = Except.error "ETAG_MISSING") :=
  uploadLoop_missingTag resp fileLen (partInfo.partSize.getD dps)
    partInfo.urls.partsURLs.length _ (partInfo.partETags.getD []) i hi

/-- C3: resuming a pending session whose partUploadStatus is a
contiguous true-prefix (k entries true, then m entries false, one per
part) puts exactly parts k, k+1, ..., k+m-1, in ascending order, and no
earlier part. -/
theorem C3_resume_from_first_false (resp : Nat → PartResp)
    (postResult : Option String) (dps fileLen k m : Nat)
    (urls : MultipartUploadURLs) (petags : Option (List (Nat × String)))
    (psz : Option Nat)
    (hlen : urls.partsURLs.length = k + m)
    (hresp : ∀ i, goodResp resp i) :
    partPuts (putExistingMultipartFile resp postResult dps fileLen
      ⟨urls, some (List.replicate k true ++ List.replicate m false), petags,
        psz, MultipartStatus.pending⟩).1 = List.range' k m := by
  have hrun := uploadParts_run resp dps fileLen
    ⟨urls, some (List.replicate k true ++ List.replicate m false), petags,
      psz, MultipartStatus.pending⟩ hresp
  dsimp only [Option.getD_some] at hrun
  rw [firstNotUploaded_replicate_append, firstNotUploaded_replicate_false,
    Nat.add_zero, hlen] at hrun
  have e2 : k + m - k = m := by omega
  rw [e2] at hrun
  obtain ⟨hparts, res, hok⟩ := hrun
  rcases putExisting_cases resp postResult dps fileLen
      ⟨urls, some (List.replicate k true ++ List.replicate m false), petags,
        psz, MultipartStatus.pending⟩ with
    ⟨hc, _⟩ | ⟨_, tr, e, hup, _⟩ | ⟨_, tr, etags, hup, hrest⟩ | ⟨hc, _⟩
  · simp at hc
  · rw [hup] at hok; simp at hok
  · have htr : (uploadParts resp dps fileLen
        ⟨urls, some (List.replicate k true ++ List.replicate m false), petags,
          psz, MultipartStatus.pending⟩).1 = tr := by rw [hup]
    rcases hrest with ⟨hpost, heq⟩ | ⟨err, hpost, heq⟩ <;>
      rw [heq] <;>
      simp [partPuts, partPuts_append, ← htr, hparts]
  · simp at hc

/-- C3 witness: resuming with partUploadStatus = [true, true, false]
uploads exactly part index 2. -/
theorem C3_witness :
    partPuts (putExistingMultipartFile (fun _ => PartResp.ok (some "e"))
      none 10 25
      ⟨⟨"objKey", ["u0", "u1", "u2"], "cUrl"⟩,
        some (List.replicate 2 true ++ List.replicate 1 false),
        some [(0, "a"), (1, "b")], some 10,
        MultipartStatus.pending⟩).1 = List.range' 2 1 :=
  C3_resume_from_first_false (fun _ => PartResp.ok (some "e")) none 10 25 2 1
    ⟨"objKey", ["u0", "u1", "u2"], "cUrl"⟩ (some [(0, "a"), (1, "b")])
    (some 10) rfl (fun _ => ⟨"e", rfl, by decide⟩)

end MultiPart

namespace MultiPart

/-- C4: when the server response for part i carries a missing or empty
identifier, no recordPart event for i ever occurs (the part is never
persisted as uploaded and no ETag is stored for it), and any run that
reaches part i aborts with the ETAG_MISSING error, so the resume scan
still stops at or before i and a retry re-sends that part. -/
theorem C4_missing_identifier (resp : Nat → PartResp) (dps fileLen : Nat)
    (partInfo : MultipartInfo) (i : Nat)
    (hi : resp i = PartResp.ok none ∨ resp i = PartResp.ok (some "")) :
    (∀ e, Event.recordPart i e ∉ (uploadParts resp dps fileLen partInfo).1) ∧
    (i ∈ partPuts (uploadParts resp dps fileLen partInfo).1 →
      (uploadParts resp dps fileLen partInfo).2 = Except.error "ETAG_MISSING") :=
  uploadParts_missingTag resp dps fileLen partInfo i hi

/-- C4 witness: a response with an empty etag for part 0 of a 1-part
session records nothing for part 0. -/
theorem C4_witness :
    Event.recordPart 0 "x" ∉
      (uploadParts (fun _ => PartResp.ok (some "")) 10 5
        ⟨⟨"objKey", ["u0"], "cUrl"⟩, none, none, some 10,
          MultipartStatus.pending⟩).1 :=
  (C4_missing_identifier (fun _ => PartResp.ok (some "")) 10 5
    ⟨⟨"objKey", ["u0"], "cUrl"⟩, none, none, some 10,
      MultipartStatus.pending⟩ 0 (Or.inr rfl)).1 "x"

/-- C5 counterexample: the completion body is the etag map in iteration
order with no sorting. Handing the completion step the map with entries
[(1, "b"), (0, "a")] yields the body [(2, "b"), (1, "a")], whose part
numbers are not strictly ascending, refuting the claim for every map. -/
theorem C5_counterexample :
    completeBody [(1, "b"), (0, "a")] = [(2, "b"), (1, "a")] ∧
    ¬ List.Chain' (fun a b : Nat × String => a.1 < b.1)
        (completeBody [(1, "b"), (0, "a")]) := by
  refine ⟨rfl, fun h => ?_⟩
  have h' : List.Chain' (fun a b : Nat × String => a.1 < b.1)
      [(2, "b"), (1, "a")] := h
  have h2 : (2 : Nat) < 1 := (List.chain'_cons.mp h').1
  omega

/-- C5 (amended): the completion body has one entry per map entry, each
carrying the 1-based part number (index + 1) and its identifier, in the
map's iteration order; whenever the map's entries are in strictly
ascending index order (as the sequential upload loop produces), the body
is strictly ascending by part number and its length equals the number of
uploaded parts. The code performs no sorting, so a map whose iteration
order is not ascending yields an unsorted body. -/
theorem C5_completion_body (partEtags : List (Nat × String))
    (hasc : List.Chain' (fun a b : Nat × String => a.1 < b.1) partEtags) :
    (completeBody partEtags).length = partEtags.length ∧
    List.Chain' (fun a b : Nat × String => a.1 < b.1)
      (completeBody partEtags) ∧
    ∀ p ∈ completeBody partEtags, 1 ≤ p.1 ∧ (p.1 - 1, p.2) ∈ partEtags := by
  refine ⟨by simp [completeBody], ?_, ?_⟩
  · rw [completeBody, List.chain'_map]
    exact hasc.imp (fun a b h => by simpa using h)
  · intro p hp
    simp only [completeBody, List.mem_map] at hp
    obtain ⟨q, hq, rfl⟩ := hp
    exact ⟨by omega, by simpa using hq⟩

/-- C5 witness: the ascending two-part map gives a strictly ascending
two-entry body. -/
theorem C5_witness :
    (completeBody [(0, "a"), (1, "b")]).length = 2 ∧
    List.Chain' (fun a b : Nat × String => a.1 < b.1)
      (completeBody [(0, "a"), (1, "b")]) := by
  have hasc : List.Chain' (fun a b : Nat × String => a.1 < b.1)
      [(0, "a"), (1, "b")] :=
    List.chain'_cons.mpr ⟨by omega, List.chain'_singleton _⟩
  have h := C5_completion_body [(0, "a"), (1, "b")] hasc
  exact ⟨h.1, h.2.1⟩

/-- C6: the resume entry point on a completed session puts no part,
posts no completion call, and returns the stored object key. -/
theorem C6_completed_noop (resp : Nat → PartResp) (postResult : Option String)
    (dps fileLen : Nat) (multipartInfo : MultipartInfo)
    (h : multipartInfo.status = MultipartStatus.completed) :
    partPuts (putExistingMultipartFile resp postResult dps fileLen
      multipartInfo).1 = [] ∧
    (∀ body, Event.postComplete body ∉
      (putExistingMultipartFile resp postResult dps fileLen multipartInfo).1) ∧
    (putExistingMultipartFile resp postResult dps fileLen multipartInfo).2 =
      Except.ok multipartInfo.urls.objectKey := by
  have heq : putExistingMultipartFile resp postResult dps fileLen multipartInfo =
      ([Event.touchLastAttempt], Except.ok multipartInfo.urls.objectKey) := by
    simp [putExistingMultipartFile, h]
  rw [heq]
  refine ⟨rfl, ?_, rfl⟩
  intro body hmem
  simp at hmem

/-- C6 witness: a concrete completed one-part session returns its object
key from the dormant resume call. -/
theorem C6_witness :
    (putExistingMultipartFile (fun _ => PartResp.ok (some "e")) none 10 5
      ⟨⟨"objKey", ["u0"], "cUrl"⟩, some [true], some [(0, "a")], some 10,
        MultipartStatus.completed⟩).2 = Except.ok "objKey" :=
  (C6_completed_noop (fun _ => PartResp.ok (some "e")) none 10 5
    ⟨⟨"objKey", ["u0"], "cUrl"⟩, some [true], some [(0, "a")], some 10,
      MultipartStatus.completed⟩ rfl).2.2

end MultiPart

namespace MultiPart

theorem uploadParts_no_completed (resp : Nat → PartResp) (dps fileLen : Nat)
    (partInfo : MultipartInfo) :
    Event.setStatus MultipartStatus.completed ∉
      (uploadParts resp dps fileLen partInfo).1 := by
  intro h
  have hmem := (mem_statusWrites _ _).mpr h
  rw [uploadParts_statusWrites] at hmem
  cases h2 : (uploadParts resp dps fileLen partInfo).2 <;>
    rw [h2] at hmem <;> simp at hmem

/-- C7: in every resume run, a part-recorded store write carries an
identifier that is non-empty and is exactly the one the server
confirmed (so it happens strictly after confirmation), and the
completed status write happens only when the finalize post succeeded,
immediately after the finalize event in the trace (never before it and
never on a failed finalize). -/
theorem C7_persist_after_confirm (resp : Nat → PartResp)
    (postResult : Option String) (dps fileLen : Nat)
    (multipartInfo : MultipartInfo) :
    (∀ i e, Event.recordPart i e ∈
        (putExistingMultipartFile resp postResult dps fileLen multipartInfo).1 →
      e ≠ "" ∧ resp i = PartResp.ok (some e)) ∧
    (Event.setStatus MultipartStatus.completed ∈
        (putExistingMultipartFile resp postResult dps fileLen multipartInfo).1 →
      postResult = none ∧
      ∃ pre body,
        (putExistingMultipartFile resp postResult dps fileLen multipartInfo).1 =
          pre ++ [Event.postComplete body,
            Event.setStatus MultipartStatus.completed]) := by
  rcases putExisting_cases resp postResult dps fileLen multipartInfo with
    ⟨hst, heq⟩ | ⟨hst, tr, e0, hup, heq⟩ | ⟨hst, tr, etags, hup, hrest⟩ |
    ⟨hst, hrest⟩
  · rw [heq]
    exact ⟨fun i e hm => by simp at hm, fun hm => by simp at hm⟩
  · have htr : (uploadParts resp dps fileLen multipartInfo).1 = tr := by
      rw [hup]
    rw [heq]
    constructor
    · intro i e hm
      simp only [List.mem_cons] at hm
      rcases hm with hm | hm
      · exact absurd hm (by simp)
      · exact uploadParts_recordPart resp dps fileLen multipartInfo i e
          (htr ▸ hm)
    · intro hm
      simp only [List.mem_cons] at hm
      rcases hm with hm | hm
      · exact absurd hm (by simp)
      · exact absurd (htr ▸ hm)
          (uploadParts_no_completed resp dps fileLen multipartInfo)
  · have htr : (uploadParts resp dps fileLen multipartInfo).1 = tr := by
      rw [hup]
    rcases hrest with ⟨hpost, heq⟩ | ⟨err, hpost, heq⟩
    · rw [heq]
      constructor
      · intro i e hm
        simp only [List.cons_append, List.mem_cons, List.mem_append] at hm
        rcases hm with hm | hm | hm
        · exact absurd hm (by simp)
        · exact uploadParts_recordPart resp dps fileLen multipartInfo i e
            (htr ▸ hm)
        · simp at hm
      · intro _
        exact ⟨hpost, Event.touchLastAttempt :: tr, completeBody etags, rfl⟩
    · rw [heq]
      constructor
      · intro i e hm
        simp only [List.cons_append, List.mem_cons, List.mem_append] at hm
        rcases hm with hm | hm | hm
        · exact absurd hm (by simp)
        · exact uploadParts_recordPart resp dps fileLen multipartInfo i e
            (htr ▸ hm)
        · simp at hm
      · intro hm
        simp only [List.cons_append, List.mem_cons, List.mem_append] at hm
        rcases hm with hm | hm | hm
        · exact absurd hm (by simp)
        · exact absurd (htr ▸ hm)
            (uploadParts_no_completed resp dps fileLen multipartInfo)
        · simp at hm
  · rcases hrest with ⟨hpost, heq⟩ | ⟨err, hpost, heq⟩
    · rw [heq]
      constructor
      · intro i e hm; simp at hm
      · intro _
        exact ⟨hpost, [Event.touchLastAttempt],
          completeBody (multipartInfo.partETags.getD []), rfl⟩
    · rw [heq]
      constructor
      · intro i e hm; simp at hm
      · intro hm; simp at hm

/-- C7 witness: in a concrete successful resume of a one-part pending
session, the recorded identifier for part 0 is the non-empty one the
server returned. -/
theorem C7_witness :
    "e" ≠ "" ∧
    (fun _ : Nat => PartResp.ok (some "e")) 0 = PartResp.ok (some "e") :=
  (C7_persist_after_confirm (fun _ => PartResp.ok (some "e")) none 10 5
    ⟨⟨"objKey", ["u0"], "cUrl"⟩, some [false], none, some 10,
      MultipartStatus.pending⟩).1 0 "e" (by simp [putExistingMultipartFile,
        uploadParts, completeMultipartUpload, uploadLoop, upsert,
        firstNotUploaded, completeBody])

end MultiPart

namespace MultiPart

/-- C8: if the finalize post fails on a session loaded as uploaded, no
status write happens (the persisted status stays uploaded), the error is
returned to the caller unchanged, and any retry on the still-uploaded
session puts no part and runs exactly the completion call again. -/
theorem C8_completion_failure (resp : Nat → PartResp) (err : String)
    (dps fileLen : Nat) (multipartInfo : MultipartInfo)
    (hst : multipartInfo.status = MultipartStatus.uploaded) :
    (∀ s, Event.setStatus s ∉
      (putExistingMultipartFile resp (some err) dps fileLen multipartInfo).1) ∧
    (putExistingMultipartFile resp (some err) dps fileLen multipartInfo).2 =
      Except.error err ∧
    (∀ postResult2,
      partPuts (putExistingMultipartFile resp postResult2 dps fileLen
        multipartInfo).1 = [] ∧
      Event.postComplete (completeBody (multipartInfo.partETags.getD [])) ∈
        (putExistingMultipartFile resp postResult2 dps fileLen
          multipartInfo).1) := by
  refine ⟨?_, ?_, ?_⟩
  · rcases putExisting_cases resp (some err) dps fileLen multipartInfo with
      ⟨hc, _⟩ | ⟨hc, _⟩ | ⟨hc, _⟩ | ⟨_, ⟨hpost, _⟩ | ⟨err2, hpost, heq⟩⟩
    · rw [hst] at hc; exact absurd hc (by simp)
    · rw [hst] at hc; exact absurd hc (by simp)
    · rw [hst] at hc; exact absurd hc (by simp)
    · exact absurd hpost (by simp)
    · rw [heq]
      intro s hm
      simp at hm
  · rcases putExisting_cases resp (some err) dps fileLen multipartInfo with
      ⟨hc, _⟩ | ⟨hc, _⟩ | ⟨hc, _⟩ | ⟨_, ⟨hpost, _⟩ | ⟨err2, hpost, heq⟩⟩
    · rw [hst] at hc; exact absurd hc (by simp)
    · rw [hst] at hc; exact absurd hc (by simp)
    · rw [hst] at hc; exact absurd hc (by simp)
    · exact absurd hpost (by simp)
    · rw [heq]
      have : err2 = err := by injection hpost with h; exact h.symm
      rw [this]
  · intro postResult2
    rcases putExisting_cases resp postResult2 dps fileLen multipartInfo with
      ⟨hc, _⟩ | ⟨hc, _⟩ | ⟨hc, _⟩ | ⟨_, ⟨hpost, heq⟩ | ⟨err2, hpost, heq⟩⟩
    · rw [hst] at hc; exact absurd hc (by simp)
    · rw [hst] at hc; exact absurd hc (by simp)
    · rw [hst] at hc; exact absurd hc (by simp)
    · rw [heq]; exact ⟨rfl, by simp⟩
    · rw [heq]; exact ⟨rfl, by simp⟩

/-- C8 witness: a concrete uploaded one-part session whose finalize
throws "boom" returns exactly that error. -/
theorem C8_witness :
    (putExistingMultipartFile (fun _ => PartResp.ok (some "e")) (some "boom")
      10 5 ⟨⟨"objKey", ["u0"], "cUrl"⟩, some [true], some [(0, "a")], some 10,
        MultipartStatus.uploaded⟩).2 = Except.error "boom" :=
  (C8_completion_failure (fun _ => PartResp.ok (some "e")) "boom" 10 5
    ⟨⟨"objKey", ["u0"], "cUrl"⟩, some [true], some [(0, "a")], some 10,
      MultipartStatus.uploaded⟩ rfl).2.1

end MultiPart

namespace MultiPart

theorem uploadParts_statusWrites_error (resp : Nat → PartResp)
    (dps fileLen : Nat) (partInfo : MultipartInfo) (tr : List Event)
    (e : String) (hup : uploadParts resp dps fileLen partInfo = (tr, Except.error e)) :
    statusWrites tr = [] := by
  have hsw := uploadParts_statusWrites resp dps fileLen partInfo
  rw [hup] at hsw
  simpa using hsw

theorem uploadParts_statusWrites_ok (resp : Nat → PartResp)
    (dps fileLen : Nat) (partInfo : MultipartInfo) (tr : List Event)
    (etags : List (Nat × String))
    (hup : uploadParts resp dps fileLen partInfo = (tr, Except.ok etags)) :
    statusWrites tr = [MultipartStatus.uploaded] := by
  have hsw := uploadParts_statusWrites resp dps fileLen partInfo
  rw [hup] at hsw
  simpa using hsw

/-- C9: in every resume run the persisted status strictly advances along
pending, uploaded, completed — starting from the loaded status, each
status write has a strictly larger rank than the one before — and the
same holds for a fresh upload starting at pending; so a session observed
at completed is never later written pending or uploaded. -/
theorem C9_status_monotone (resp : Nat → PartResp) (postResult : Option String)
    (dps fileLen : Nat) (multipartInfo : MultipartInfo)
    (urls : MultipartUploadURLs) :
    List.Chain' (fun a b => rank a < rank b)
      (multipartInfo.status ::
        statusWrites (putExistingMultipartFile resp postResult dps fileLen
          multipartInfo).1) ∧
    List.Chain' (fun a b => rank a < rank b)
      (MultipartStatus.pending ::
        statusWrites (putMultipartFile resp postResult dps fileLen urls).1) := by
  constructor
  · rcases putExisting_cases resp postResult dps fileLen multipartInfo with
      ⟨hst, heq⟩ | ⟨hst, tr, e0, hup, heq⟩ | ⟨hst, tr, etags, hup, hrest⟩ |
      ⟨hst, hrest⟩
    · rw [hst, heq]
      simp [statusWrites]
    · rw [hst, heq]
      simp [statusWrites, uploadParts_statusWrites_error resp dps fileLen
        multipartInfo tr e0 hup]
    · rcases hrest with ⟨hpost, heq⟩ | ⟨err, hpost, heq⟩ <;>
        rw [hst, heq] <;>
        simp [statusWrites, statusWrites_append,
          uploadParts_statusWrites_ok resp dps fileLen multipartInfo tr etags
            hup, List.chain'_cons, List.chain'_singleton, rank]
    · rcases hrest with ⟨hpost, heq⟩ | ⟨err, hpost, heq⟩ <;>
        rw [hst, heq] <;>
        simp [statusWrites, List.chain'_cons, List.chain'_singleton, rank]
  · cases hup : uploadParts resp dps fileLen
        ⟨urls, none, none, none, MultipartStatus.pending⟩ with
    | mk tr res =>
      cases res with
      | error e =>
        have heq : putMultipartFile resp postResult dps fileLen urls =
            (tr, Except.error e) := by
          simp [putMultipartFile, hup]
        rw [heq]
        simp [statusWrites, uploadParts_statusWrites_error resp dps fileLen
          ⟨urls, none, none, none, MultipartStatus.pending⟩ tr e hup]
      | ok etags =>
        cases postResult with
        | none =>
          have heq : putMultipartFile resp none dps fileLen urls =
              (tr ++ [Event.postComplete (completeBody etags),
                Event.setStatus MultipartStatus.completed],
                Except.ok urls.objectKey) := by
            simp [putMultipartFile, hup, completeMultipartUpload]
          rw [heq]
          simp [statusWrites, statusWrites_append,
            uploadParts_statusWrites_ok resp dps fileLen
              ⟨urls, none, none, none, MultipartStatus.pending⟩ tr etags hup,
            List.chain'_cons, List.chain'_singleton, rank]
        | some err =>
          have heq : putMultipartFile resp (some err) dps fileLen urls =
              (tr ++ [Event.postComplete (completeBody etags)],
                Except.error err) := by
            simp [putMultipartFile, hup, completeMultipartUpload]
          rw [heq]
          simp [statusWrites, statusWrites_append,
            uploadParts_statusWrites_ok resp dps fileLen
              ⟨urls, none, none, none, MultipartStatus.pending⟩ tr etags hup,
            List.chain'_cons, List.chain'_singleton, rank]

end MultiPart

namespace MultiPart

/-- C10: resuming a pending session with an arbitrary (possibly
non-contiguous) partUploadStatus performs no contiguity check: it scans
to the first false entry and re-uploads every part from that index
onward in ascending order, including parts already marked uploaded, and
the final etag map binds each such part to the freshly returned
identifier, overwriting any previously recorded one. -/
theorem C10_no_contiguity_check (resp : Nat → PartResp) (dps fileLen : Nat)
    (urls : MultipartUploadURLs) (l : List Bool)
    (petags : List (Nat × String)) (psz : Option Nat)
    (hresp : ∀ i, goodResp resp i) :
    partPuts (uploadParts resp dps fileLen
      ⟨urls, some l, some petags, psz, MultipartStatus.pending⟩).1 =
      List.range' (firstNotUploaded l)
        (urls.partsURLs.length - firstNotUploaded l) ∧
    ∃ res, (uploadParts resp dps fileLen
        ⟨urls, some l, some petags, psz, MultipartStatus.pending⟩).2 =
          Except.ok res ∧
      ∀ i, firstNotUploaded l ≤ i → i < urls.partsURLs.length →
        ∀ s, resp i = PartResp.ok (some s) → lookupEtag res i = some s := by
  have hrun := uploadParts_run resp dps fileLen
    ⟨urls, some l, some petags, psz, MultipartStatus.pending⟩ hresp
  dsimp only [Option.getD_some] at hrun
  obtain ⟨hparts, res, hok⟩ := hrun
  refine ⟨hparts, res, hok, ?_⟩
  intro i h1 h2 s hs
  have hlk := uploadParts_lookup resp dps fileLen
    ⟨urls, some l, some petags, psz, MultipartStatus.pending⟩ res hok
  dsimp only [Option.getD_some] at hlk
  apply hlk i ?_ s hs
  rw [List.mem_range'_1]
  omega

/-- C10 witness: partUploadStatus = [true, false, true] resumes at part
1 and re-uploads parts 1 and 2 even though part 2 is already marked
uploaded. -/
theorem C10_witness :
    partPuts (uploadParts (fun _ => PartResp.ok (some "e")) 10 25
      ⟨⟨"objKey", ["u0", "u1", "u2"], "cUrl"⟩, some [true, false, true],
        some [(0, "old0"), (2, "old2")], some 10,
        MultipartStatus.pending⟩).1 = List.range' 1 2 :=
  (C10_no_contiguity_check (fun _ => PartResp.ok (some "e")) 10 25
    ⟨"objKey", ["u0", "u1", "u2"], "cUrl"⟩ [true, false, true]
    [(0, "old0"), (2, "old2")] (some 10)
    (fun _ => ⟨"e", rfl, by decide⟩)).1

end MultiPart
